import Mathlib

/-!
Shallow embedding of the Go package `conf8n` (config.go, constructors.go).

The package wraps an already-parsed configuration tree of type
`map[string]interface{}` and offers dotted-key lookup (`Config.Get`),
typed coercion accessors on `ConfigValue` (plain / `Must` / `Def`
variants) and iteration over slice and map values.

Modelling choices:
* Go `interface{}` values appearing in a parsed JSON/YAML tree are
  modelled by the inductive type `Val`: nil, int, string, float64, bool,
  `[]interface{}`, `map[string]interface{}` and
  `map[interface{}]interface{}`.
* Go maps are modelled as association lists (`List (key × Val)`).  Go map
  reads `m[k]` that ignore the `ok` flag are modelled by
  `(List.lookup k m).getD Val.vnil` (a missing key yields the zero value
  of `interface{}`, i.e. nil); reads that use the `ok` flag keep the
  `Option`.
* Go `float64` carries no arithmetic anywhere in this package (values are
  only stored and type-asserted), so its payload is modelled by `Rat`,
  with `0` standing for the zero value `0.0`.
* Go `int` is modelled by `Int`; no arithmetic on it occurs either.
* Functions returning `(value, error)` pairs are modelled as
  `value × Option errorMessage`, `none` standing for a nil error.
* Indexing a slice out of range panics in Go; iterator methods that can
  panic return an `Option`, `none` standing for the panic.
-/

/-- Go `string`. -/
abbrev GoStr := String

/-- Go `int` (no arithmetic occurs in the package, so overflow is moot). -/
abbrev GoInt := Int

/-- Go `float64`; only stored and type-asserted, never computed with, so a
`Rat` payload is a faithful model with `0` as the zero value. -/
abbrev GoFloat := Rat

/-- Go `bool`. -/
abbrev GoBool := Bool

/-- A Go `interface{}` value as it appears in a parsed configuration tree. -/
inductive Val where
  /-- the nil interface value -/
  | vnil : Val
  /-- an `int` -/
  | vint (i : GoInt) : Val
  /-- a `string` -/
  | vstr (s : GoStr) : Val
  /-- a `float64` -/
  | vfloat (f : GoFloat) : Val
  /-- a `bool` -/
  | vbool (b : GoBool) : Val
  /-- a `[]interface{}` -/
  | vlist (a : List Val) : Val
  /-- a `map[string]interface{}`, as an association list -/
  | vsmap (m : List (GoStr × Val)) : Val
  /-- a `map[interface{}]interface{}`, as an association list -/
  | vimap (m : List (Val × Val)) : Val

/-- Go source: `const SEP = "."` -/
def SEP : GoStr := "."

/-- Model of Go `strings.Split(s, SEP)` for the package's one-character
separator `SEP = "."`: split the character sequence of `s` on `'.'`.
For a one-character separator this agrees with `strings.Split`, including
the edge cases `Split("", ".") = [""]` and trailing separators. -/
def stringsSplitSep (s : GoStr) : List GoStr :=
  (s.toList.splitOn '.').map List.asString

/-- Go source: `type Config struct { data map[string]interface{} }` -/
structure Config where
  data : List (GoStr × Val)

/-- Go source: `type ConfigValue struct { v interface{} }` -/
structure ConfigValue where
  v : Val

/-- Loop body of `toStrMap` for the `map[interface{}]interface{}` case:
every key must be a string, otherwise the function returns nil. -/
def imapToStr : List (Val × Val) → Option (List (GoStr × Val))
  | [] => some []
  | (k, v) :: rest =>
    match k with
    | .vstr s => (imapToStr rest).map (fun m => (s, v) :: m)
    | _ => none

/-- Go source: `func toStrMap(value interface{}) map[string]interface{}`.
Returns the value as a string-keyed map when it already is one, converts an
interface-keyed map whose keys are all strings, and yields nil (`none`)
otherwise. -/
def toStrMap : Val → Option (List (GoStr × Val))
  | .vsmap m => some m
  | .vimap l => imapToStr l
  | _ => none

/-- Go source: `func getValueWithCompositeKey(m map[string]interface{},
keyChunks []string, current int) interface{}`.  The Go original walks
`keyChunks` by an index `current`; we recurse on the list of remaining
chunks, which is the same traversal.  The read `data, _ := m[chunk]`
yields nil for a missing key. -/
def getValueWithCompositeKey : List (GoStr × Val) → List GoStr → Val
  | _, [] => Val.vnil
  | m, [k] => (m.lookup k).getD Val.vnil
  | m, k :: k' :: ks =>
    match toStrMap ((m.lookup k).getD Val.vnil) with
    | some m2 => getValueWithCompositeKey m2 (k' :: ks)
    | none => Val.vnil

/-- Go source: `func (c *Config) Get(key string) *ConfigValue`.  A literal
hit in the top-level map (even with a nil value) wins; otherwise the key is
split on `SEP` and resolved by `getValueWithCompositeKey`. -/
def Config.Get (c : Config) (key : GoStr) : ConfigValue :=
  match c.data.lookup key with
  | some v => ⟨v⟩
  | none => ⟨getValueWithCompositeKey c.data (stringsSplitSep key)⟩

/-- Go source: `func (v *ConfigValue) IsSet() bool` — `v.v != nil`. -/
def ConfigValue.IsSet (v : ConfigValue) : GoBool :=
  match v.v with
  | .vnil => false
  | _ => true

/-- Go source: `func (v *ConfigValue) Int() int` — `i, _ := v.v.(int)`. -/
def ConfigValue.Int (v : ConfigValue) : GoInt :=
  match v.v with
  | .vint i => i
  | _ => 0

/-- Go source: `func (v *ConfigValue) String() string`. -/
def ConfigValue.String (v : ConfigValue) : GoStr :=
  match v.v with
  | .vstr s => s
  | _ => ""

/-- Go source: `func (v *ConfigValue) Float() float64`. -/
def ConfigValue.Float (v : ConfigValue) : GoFloat :=
  match v.v with
  | .vfloat f => f
  | _ => 0

/-- Go source: `func (v *ConfigValue) Bool() bool`. -/
def ConfigValue.Bool (v : ConfigValue) : GoBool :=
  match v.v with
  | .vbool b => b
  | _ => false

/-- Go source: `func (v *ConfigValue) MustInt() (int, error)`; the error is
modelled as `Option GoStr` (`none` = nil error). -/
def ConfigValue.MustInt (v : ConfigValue) : GoInt × Option GoStr :=
  if v.IsSet = false then (0, some "Value is not set")
  else
    match v.v with
    | .vint i => (i, none)
    | _ => (0, some "Value is not int")

/-- Go source: `func (v *ConfigValue) MustString() (string, error)`. -/
def ConfigValue.MustString (v : ConfigValue) : GoStr × Option GoStr :=
  if v.IsSet = false then ("", some "Value is not set")
  else
    match v.v with
    | .vstr s => (s, none)
    | _ => ("", some "Value is not string")

/-- Go source: `func (v *ConfigValue) MustFloat() (float64, error)`. -/
def ConfigValue.MustFloat (v : ConfigValue) : GoFloat × Option GoStr :=
  if v.IsSet = false then (0, some "Value is not set")
  else
    match v.v with
    | .vfloat f => (f, none)
    | _ => (0, some "Value is not float")

/-- Go source: `func (v *ConfigValue) MustBool() (bool, error)`. -/
def ConfigValue.MustBool (v : ConfigValue) : GoBool × Option GoStr :=
  if v.IsSet = false then (false, some "Value is not set")
  else
    match v.v with
    | .vbool b => (b, none)
    | _ => (false, some "Value is not bool")

/-- Go source: `func (v *ConfigValue) DefInt(def int) int`. -/
def ConfigValue.DefInt (v : ConfigValue) (def_ : GoInt) : GoInt :=
  match v.v with
  | .vint i => i
  | _ => def_

/-- Go source: `func (v *ConfigValue) DefString(def string) string`. -/
def ConfigValue.DefString (v : ConfigValue) (def_ : GoStr) : GoStr :=
  match v.v with
  | .vstr s => s
  | _ => def_

/-- Go source: `func (v *ConfigValue) DefFloat(def float64) float64`. -/
def ConfigValue.DefFloat (v : ConfigValue) (def_ : GoFloat) : GoFloat :=
  match v.v with
  | .vfloat f => f
  | _ => def_

/-- Go source: `func (v *ConfigValue) DefBool(def bool) bool`. -/
def ConfigValue.DefBool (v : ConfigValue) (def_ : GoBool) : GoBool :=
  match v.v with
  | .vbool b => b
  | _ => def_

/-- Go source: `func mapGetKeys(m map[string]interface{}) []interface{}` —
collects the keys of the map, each wrapped as an interface value. -/
def mapGetKeys (m : List (GoStr × Val)) : List Val :=
  m.map (fun p => Val.vstr p.1)

/-- The three concrete implementations of the Go `Iterator` interface:
`ListIterator{a, i}`, `MapIterator{&ListIterator{keys, i}, m}` (the
embedded list iterator ranges over `mapGetKeys m`), and `EmptyIterator{}`. -/
inductive Iterator where
  /-- `ListIterator` with slice `a` and index `i` -/
  | listIt (a : List Val) (i : Nat) : Iterator
  /-- `MapIterator`: embedded `ListIterator` over the key slice `a`
  (produced by `mapGetKeys`) at index `i`, plus the map `m` -/
  | mapIt (a : List Val) (i : Nat) (m : List (GoStr × Val)) : Iterator
  /-- `EmptyIterator` -/
  | emptyIt : Iterator

/-- Go source: `func (v *ConfigValue) Iterate() Iterator` — a slice gives a
`ListIterator`, a string-keyed-viewable map gives a `MapIterator` over its
keys, anything else the `EmptyIterator`. -/
def ConfigValue.Iterate (v : ConfigValue) : Iterator :=
  match v.v with
  | .vlist a => .listIt a 0
  | w =>
    match toStrMap w with
    | some m => .mapIt (mapGetKeys m) 0 m
    | none => .emptyIt

/-- Go source: `ListIterator.Finished` (`i.i == len(i.a)`), promoted
unchanged to `MapIterator`; `EmptyIterator.Finished` always true. -/
def Iterator.Finished : Iterator → GoBool
  | .listIt a i => i == a.length
  | .mapIt a i _ => i == a.length
  | .emptyIt => true

/-- Go source: `ListIterator.Next` — `if !i.Finished() { i.i++ }` —
promoted unchanged to `MapIterator`; `EmptyIterator.Next` does nothing. -/
def Iterator.Next : Iterator → Iterator
  | .listIt a i => if i == a.length then .listIt a i else .listIt a (i + 1)
  | .mapIt a i m => if i == a.length then .mapIt a i m else .mapIt a (i + 1) m
  | .emptyIt => .emptyIt

/-- Go source: `ListIterator.Index` / `EmptyIterator.Index`. -/
def Iterator.Index : Iterator → Nat
  | .listIt _ i => i
  | .mapIt _ i _ => i
  | .emptyIt => 0

/-- Go source: `Key()` — `""` for `ListIterator` and `EmptyIterator`;
for `MapIterator` it is `i.ListIterator.Value().String()`, which indexes
the key slice (`none` models the out-of-range panic). -/
def Iterator.Key : Iterator → Option GoStr
  | .listIt _ _ => some ""
  | .mapIt a i _ => (a[i]?).map (fun kv => ConfigValue.String ⟨kv⟩)
  | .emptyIt => some ""

/-- Go source: `Value()` — `ListIterator` returns `&ConfigValue{i.a[i.i]}`
(`none` models the out-of-range panic); `MapIterator` returns
`&ConfigValue{i.m[i.Key()]}` (a Go map read, nil when the key is absent);
`EmptyIterator` returns the nil value. -/
def Iterator.Value : Iterator → Option ConfigValue
  | .listIt a i => (a[i]?).map (fun x => ⟨x⟩)
  | .mapIt a i m =>
    (a[i]?).map (fun kv => ⟨(m.lookup (ConfigValue.String ⟨kv⟩)).getD Val.vnil⟩)
  | .emptyIt => some ⟨Val.vnil⟩

/-! ## Claim C1: dotted-path resolution -/

/-- Spec-side chase over the intermediate segments, written from the
claim's words: every intermediate segment must be present and its value
viewable as a string-keyed map, otherwise the chase fails. -/
def specChase (om : Option (List (GoStr × Val))) (segs : List GoStr) :
    Option (List (GoStr × Val)) :=
  segs.foldl (fun acc s => acc.bind (fun m => (m.lookup s).bind toStrMap)) om

/-- Spec-side resolution of an already-split key: descend through all but
the last segment, then return the value found under the last segment
(nil when the chase failed or the last segment is absent). -/
def specResolve (m : List (GoStr × Val)) (segs : List GoStr) : Val :=
  match segs.getLast? with
  | none => Val.vnil
  | some last =>
    match specChase (some m) segs.dropLast with
    | none => Val.vnil
    | some m2 => (m2.lookup last).getD Val.vnil

/-- Spec-side lookup, written from the claim's words: the value stored
under the literal key when present, otherwise the key is split on `"."`
and resolved segment by segment through nested string-keyed maps. -/
def specGet (c : Config) (key : GoStr) : ConfigValue :=
  match c.data.lookup key with
  | some v => ⟨v⟩
  | none => ⟨specResolve c.data (stringsSplitSep key)⟩

theorem specChase_none (segs : List GoStr) : specChase none segs = none := by
  induction segs with
  | nil => rfl
  | cons s t ih => simpa [specChase] using ih

theorem toStrMap_bind (o : Option Val) :
    o.bind toStrMap = toStrMap (o.getD Val.vnil) := by
  cases o <;> rfl

theorem getValueWithCompositeKey_eq_specResolve (segs : List GoStr) :
    ∀ m, getValueWithCompositeKey m segs = specResolve m segs := by
  induction segs with
  | nil => intro m; rfl
  | cons k rest ih =>
    intro m
    cases rest with
    | nil => rfl
    | cons k' ks =>
      have hstep : specChase (some m) ((k :: k' :: ks).dropLast) =
          specChase ((m.lookup k).bind toStrMap) ((k' :: ks).dropLast) := rfl
      rw [getValueWithCompositeKey]
      unfold specResolve
      rw [List.getLast?_cons_cons, hstep, toStrMap_bind]
      cases h : toStrMap ((m.lookup k).getD Val.vnil) with
      | none =>
        dsimp only
        cases hl : (k' :: ks).getLast? with
        | none => rfl
        | some last => rw [specChase_none]
      | some m2 =>
        dsimp only
        rw [ih m2]
        rfl

/-- C1: for every `Config` and key string, `Get` returns the value stored
under the literal key when present in the top-level map; otherwise it
splits the key on `"."` and descends recursively through nested
string-keyed maps segment by segment, returning the value found under the
last segment, and nil whenever an intermediate segment is absent or its
value cannot be viewed as a string-keyed map. -/
theorem get_resolves_dotted_path (c : Config) (key : GoStr) :
    Config.Get c key = specGet c key := by
  unfold Config.Get specGet
  cases c.data.lookup key with
  | some v => rfl
  | none => rw [getValueWithCompositeKey_eq_specResolve]

/-! ## Claim C2: number of levels the dotted lookup resolves through -/

/-- Joining of segments with the `"."` separator (inverse of splitting),
used to phrase the two-level reading of the lookup. -/
def joinDot : List GoStr → GoStr
  | [] => ""
  | [s] => s
  | s :: s' :: rest => s ++ "." ++ joinDot (s' :: rest)

/-- Two-level reading of the lookup, written from the claim's words
("a dotted key resolves through at most two levels of the nested tree"):
the literal key at the top level, else the first segment selects a nested
map and the remainder of the key is looked up there literally. -/
def twoLevelGet (c : Config) (key : GoStr) : ConfigValue :=
  match c.data.lookup key with
  | some v => ⟨v⟩
  | none =>
    match stringsSplitSep key with
    | [] => ⟨Val.vnil⟩
    | [_] => ⟨Val.vnil⟩
    | k :: rest =>
      match (c.data.lookup k).bind toStrMap with
      | none => ⟨Val.vnil⟩
      | some m2 => ⟨(m2.lookup (joinDot rest)).getD Val.vnil⟩

/-- C2 counterexample: on `{"a": {"b": {"c": 42}}}` the key `"a.b.c"`
resolves through three levels of the nested tree — `Get` returns 42 while
the two-level reading of the lookup yields nil. -/
theorem get_not_two_level :
    Config.Get ⟨[("a", Val.vsmap [("b", Val.vsmap [("c", Val.vint 42)])])]⟩ "a.b.c"
      = ⟨Val.vint 42⟩ ∧
    twoLevelGet ⟨[("a", Val.vsmap [("b", Val.vsmap [("c", Val.vint 42)])])]⟩ "a.b.c"
      = ⟨Val.vnil⟩ ∧
    (⟨Val.vint 42⟩ : ConfigValue) ≠ (⟨Val.vnil⟩ : ConfigValue) :=
  ⟨rfl, rfl, fun h => Val.noConfusion (congrArg ConfigValue.v h)⟩

/-- Nested single-key string maps: `nestVal [s₁, …, sₙ] v` is the tree
`{s₁: {s₂: … {sₙ: v} …}}`. -/
def nestVal : List GoStr → Val → Val
  | [], v => v
  | k :: ks, v => Val.vsmap [(k, nestVal ks v)]

theorem getValueWithCompositeKey_nest (ks : List GoStr) :
    ∀ (k : GoStr) (v : Val),
      getValueWithCompositeKey [(k, nestVal ks v)] (k :: ks) = v := by
  induction ks with
  | nil => intro k v; simp [getValueWithCompositeKey, List.lookup, nestVal]
  | cons k' ks' ih =>
    intro k v
    simp [getValueWithCompositeKey, List.lookup, nestVal, toStrMap, ih k' v]

/-- C2 amended: the dotted lookup is not limited to two levels — the
recursive descent consumes one nested map per dot-separated segment, so a
key whose split is `k :: ks` resolves through `1 + ks.length` levels. -/
theorem get_recurses_per_segment (key k : GoStr) (ks : List GoStr) (v : Val)
    (hsplit : stringsSplitSep key = k :: ks) (hne : key ≠ k) :
    Config.Get ⟨[(k, nestVal ks v)]⟩ key = ⟨v⟩ := by
  have hbeq : (key == k) = false := beq_eq_false_iff_ne.mpr hne
  have hlk : (([(k, nestVal ks v)] : List (GoStr × Val)).lookup key) = none := by
    simp [List.lookup, hbeq]
  unfold Config.Get
  rw [hlk, hsplit]
  exact congrArg ConfigValue.mk (getValueWithCompositeKey_nest ks k v)

/-- Witness for the amended C2 at the concrete key `"a.b.c"`. -/
theorem get_recurses_per_segment_witness :
    Config.Get ⟨[("a", nestVal ["b", "c"] (Val.vint 42))]⟩ "a.b.c" = ⟨Val.vint 42⟩ :=
  get_recurses_per_segment "a.b.c" "a" ["b", "c"] (Val.vint 42) (by decide) (by decide)

/-! ## Claim C3: plain coercion accessors -/

/-- C3: each plain coercion accessor returns the stored value when it has
the requested type and the zero value otherwise (`0`, `""`, `0.0`,
`false`), including the not-set nil case. -/
theorem plain_accessors_zero_or_value (x : ConfigValue) :
    (∀ i, x.v = Val.vint i → ConfigValue.Int x = i) ∧
    ((∀ i, x.v ≠ Val.vint i) → ConfigValue.Int x = 0) ∧
    (∀ s, x.v = Val.vstr s → ConfigValue.String x = s) ∧
    ((∀ s, x.v ≠ Val.vstr s) → ConfigValue.String x = "") ∧
    (∀ f, x.v = Val.vfloat f → ConfigValue.Float x = f) ∧
    ((∀ f, x.v ≠ Val.vfloat f) → ConfigValue.Float x = 0) ∧
    (∀ b, x.v = Val.vbool b → ConfigValue.Bool x = b) ∧
    ((∀ b, x.v ≠ Val.vbool b) → ConfigValue.Bool x = false) := by
  obtain ⟨w⟩ := x
  refine ⟨?_, ?_, ?_, ?_, ?_, ?_, ?_, ?_⟩ <;> cases w <;>
    simp_all [ConfigValue.Int, ConfigValue.String, ConfigValue.Float, ConfigValue.Bool]

/-- Witness for C3 at the concrete values `5 : int` and nil. -/
theorem plain_accessors_zero_or_value_witness :
    ConfigValue.Int ⟨Val.vint 5⟩ = 5 ∧
    ConfigValue.String ⟨Val.vint 5⟩ = "" ∧
    ConfigValue.Bool ⟨Val.vnil⟩ = false :=
  ⟨(plain_accessors_zero_or_value ⟨Val.vint 5⟩).1 5 rfl,
   (plain_accessors_zero_or_value ⟨Val.vint 5⟩).2.2.2.1 (fun _ h => Val.noConfusion h),
   (plain_accessors_zero_or_value ⟨Val.vnil⟩).2.2.2.2.2.2.2 (fun _ h => Val.noConfusion h)⟩

/-! ## Claim C4: Must accessors -/

/-- C4: each Must accessor returns `(value, nil error)` exactly when the
stored value has the requested type; it returns the zero value together
with a non-nil error both when the value is nil (not set) and when it is
set with a different type. -/
theorem must_accessors_error_iff (x : ConfigValue) :
    (∀ i, x.v = Val.vint i → ConfigValue.MustInt x = (i, none)) ∧
    (x.v = Val.vnil → ConfigValue.MustInt x = (0, some "Value is not set")) ∧
    (x.v ≠ Val.vnil → (∀ i, x.v ≠ Val.vint i) →
      ConfigValue.MustInt x = (0, some "Value is not int")) ∧
    ((ConfigValue.MustInt x).2 = none ↔ ∃ i, x.v = Val.vint i) ∧
    (∀ s, x.v = Val.vstr s → ConfigValue.MustString x = (s, none)) ∧
    (x.v = Val.vnil → ConfigValue.MustString x = ("", some "Value is not set")) ∧
    (x.v ≠ Val.vnil → (∀ s, x.v ≠ Val.vstr s) →
      ConfigValue.MustString x = ("", some "Value is not string")) ∧
    ((ConfigValue.MustString x).2 = none ↔ ∃ s, x.v = Val.vstr s) ∧
    (∀ f, x.v = Val.vfloat f → ConfigValue.MustFloat x = (f, none)) ∧
    (x.v = Val.vnil → ConfigValue.MustFloat x = (0, some "Value is not set")) ∧
    (x.v ≠ Val.vnil → (∀ f, x.v ≠ Val.vfloat f) →
      ConfigValue.MustFloat x = (0, some "Value is not float")) ∧
    ((ConfigValue.MustFloat x).2 = none ↔ ∃ f, x.v = Val.vfloat f) ∧
    (∀ b, x.v = Val.vbool b → ConfigValue.MustBool x = (b, none)) ∧
    (x.v = Val.vnil → ConfigValue.MustBool x = (false, some "Value is not set")) ∧
    (x.v ≠ Val.vnil → (∀ b, x.v ≠ Val.vbool b) →
      ConfigValue.MustBool x = (false, some "Value is not bool")) ∧
    ((ConfigValue.MustBool x).2 = none ↔ ∃ b, x.v = Val.vbool b) := by
  obtain ⟨w⟩ := x
  refine ⟨?_, ?_, ?_, ?_, ?_, ?_, ?_, ?_, ?_, ?_, ?_, ?_, ?_, ?_, ?_, ?_⟩ <;>
    cases w <;>
      simp_all [ConfigValue.MustInt, ConfigValue.MustString, ConfigValue.MustFloat,
        ConfigValue.MustBool, ConfigValue.IsSet]

/-- Witness for C4 at `7 : int`, nil, and a `bool` asked for as `int`. -/
theorem must_accessors_error_iff_witness :
    ConfigValue.MustInt ⟨Val.vint 7⟩ = (7, none) ∧
    ConfigValue.MustInt ⟨Val.vnil⟩ = (0, some "Value is not set") ∧
    ConfigValue.MustInt ⟨Val.vbool true⟩ = (0, some "Value is not int") :=
  ⟨(must_accessors_error_iff ⟨Val.vint 7⟩).1 7 rfl,
   (must_accessors_error_iff ⟨Val.vnil⟩).2.1 rfl,
   (must_accessors_error_iff ⟨Val.vbool true⟩).2.2.1
     (fun h => Val.noConfusion h) (fun _ h => Val.noConfusion h)⟩

/-! ## Claim C5: Def accessors -/

/-- C5: each Def accessor returns the stored value when it has the
requested type and the given default in every other case, including when
the value was never set. -/
theorem def_accessors_default_or_value (x : ConfigValue)
    (di : GoInt) (ds : GoStr) (df : GoFloat) (db : GoBool) :
    (∀ i, x.v = Val.vint i → ConfigValue.DefInt x di = i) ∧
    ((∀ i, x.v ≠ Val.vint i) → ConfigValue.DefInt x di = di) ∧
    (∀ s, x.v = Val.vstr s → ConfigValue.DefString x ds = s) ∧
    ((∀ s, x.v ≠ Val.vstr s) → ConfigValue.DefString x ds = ds) ∧
    (∀ f, x.v = Val.vfloat f → ConfigValue.DefFloat x df = f) ∧
    ((∀ f, x.v ≠ Val.vfloat f) → ConfigValue.DefFloat x df = df) ∧
    (∀ b, x.v = Val.vbool b → ConfigValue.DefBool x db = b) ∧
    ((∀ b, x.v ≠ Val.vbool b) → ConfigValue.DefBool x db = db) := by
  obtain ⟨w⟩ := x
  refine ⟨?_, ?_, ?_, ?_, ?_, ?_, ?_, ?_⟩ <;> cases w <;>
    simp_all [ConfigValue.DefInt, ConfigValue.DefString, ConfigValue.DefFloat,
      ConfigValue.DefBool]

/-- Witness for C5 at a stored string and an unset value. -/
theorem def_accessors_default_or_value_witness :
    ConfigValue.DefString ⟨Val.vstr "host"⟩ "127.0.0.1" = "host" ∧
    ConfigValue.DefInt ⟨Val.vnil⟩ 3306 = 3306 :=
  ⟨(def_accessors_default_or_value ⟨Val.vstr "host"⟩ 0 "127.0.0.1" 0 false).2.2.1 "host" rfl,
   (def_accessors_default_or_value ⟨Val.vnil⟩ 3306 "" 0 false).2.1
     (fun _ h => Val.noConfusion h)⟩

/-! ## Claim C6: the three iterator variants -/

theorem iterate_eq_mapIt (v : Val) (m : List (GoStr × Val))
    (h : toStrMap v = some m) :
    ConfigValue.Iterate ⟨v⟩ = Iterator.mapIt (mapGetKeys m) 0 m := by
  cases v <;> simp_all [ConfigValue.Iterate, toStrMap]

/-- C6: `Iterate` returns exactly one of three variants — a list iterator
over the elements for a slice, a map iterator over the entries for a value
viewable as a string-keyed map, and otherwise the empty iterator, whose
`Finished` is immediately true, whose `Next` does nothing and whose
`Value`, `Key` and `Index` are the nil value, `""` and `0`. -/
theorem iterate_three_variants (x : ConfigValue) :
    (∀ a, x.v = Val.vlist a → ConfigValue.Iterate x = Iterator.listIt a 0) ∧
    (∀ m, toStrMap x.v = some m →
      ConfigValue.Iterate x = Iterator.mapIt (mapGetKeys m) 0 m) ∧
    ((∀ a, x.v ≠ Val.vlist a) → toStrMap x.v = none →
      ConfigValue.Iterate x = Iterator.emptyIt) ∧
    Iterator.Finished Iterator.emptyIt = true ∧
    Iterator.Next Iterator.emptyIt = Iterator.emptyIt ∧
    Iterator.Value Iterator.emptyIt = some ⟨Val.vnil⟩ ∧
    Iterator.Key Iterator.emptyIt = some "" ∧
    Iterator.Index Iterator.emptyIt = 0 := by
  obtain ⟨w⟩ := x
  refine ⟨?_, fun m h => iterate_eq_mapIt w m h, ?_, rfl, rfl, rfl, rfl, rfl⟩ <;>
    cases w <;> simp_all [ConfigValue.Iterate, toStrMap]

/-- Witness for C6 at a slice, a string-keyed map and a scalar. -/
theorem iterate_three_variants_witness :
    ConfigValue.Iterate ⟨Val.vlist [Val.vint 1]⟩ = Iterator.listIt [Val.vint 1] 0 ∧
    ConfigValue.Iterate ⟨Val.vsmap [("x", Val.vint 1)]⟩
      = Iterator.mapIt [Val.vstr "x"] 0 [("x", Val.vint 1)] ∧
    ConfigValue.Iterate ⟨Val.vbool true⟩ = Iterator.emptyIt :=
  ⟨(iterate_three_variants ⟨Val.vlist [Val.vint 1]⟩).1 _ rfl,
   (iterate_three_variants ⟨Val.vsmap [("x", Val.vint 1)]⟩).2.1 _ rfl,
   (iterate_three_variants ⟨Val.vbool true⟩).2.2.1
     (fun _ h => Val.noConfusion h) rfl⟩

/-! ## Claim C7: nothing mutates the configuration data -/

/-- Underlying slice of an iterator: the element slice of a list iterator,
the key slice of a map iterator. -/
def Iterator.srcSlice : Iterator → List Val
  | .listIt a _ => a
  | .mapIt a _ _ => a
  | .emptyIt => []

/-- Underlying map of a map iterator. -/
def Iterator.srcMap : Iterator → List (GoStr × Val)
  | .listIt _ _ => []
  | .mapIt _ _ m => m
  | .emptyIt => []

theorem next_preserves_src (it : Iterator) :
    Iterator.srcSlice (Iterator.Next it) = Iterator.srcSlice it ∧
    Iterator.srcMap (Iterator.Next it) = Iterator.srcMap it := by
  cases it with
  | listIt a i =>
    simp only [Iterator.Next]
    split <;> exact ⟨rfl, rfl⟩
  | mapIt a i m =>
    simp only [Iterator.Next]
    split <;> exact ⟨rfl, rfl⟩
  | emptyIt => exact ⟨rfl, rfl⟩

/-- C7: the package never mutates configuration data.  All operations of
the embedding are pure functions of the tree, and the only state an
operation carries — an iterator's position — changes without ever touching
the iterator's underlying slice or map: any number of `Next` steps leaves
them unchanged, as does reading the iterator through `Value`. -/
theorem iteration_never_mutates_data (it : Iterator) (n : Nat) :
    Iterator.srcSlice (Iterator.Next^[n] it) = Iterator.srcSlice it ∧
    Iterator.srcMap (Iterator.Next^[n] it) = Iterator.srcMap it := by
  induction n with
  | zero => exact ⟨rfl, rfl⟩
  | succ n ih =>
    rw [Function.iterate_succ_apply']
    exact ⟨(next_preserves_src _).1.trans ih.1, (next_preserves_src _).2.trans ih.2⟩

/-! ## Claim C8: list-iterator bounds -/

/-- C8: `Next` never advances a list iterator past the end — once
`Finished` it is the identity, and an in-range index stays in range — but
`Value` on a finished list iterator indexes the slice out of bounds (the
model returns `none`, standing for the Go panic), so `Value` is safe
exactly while the iterator is not finished. -/
theorem list_iterator_next_bounded (a : List Val) (i : Nat) :
    (i ≤ a.length → Iterator.Index (Iterator.Next (Iterator.listIt a i)) ≤ a.length) ∧
    (Iterator.Finished (Iterator.listIt a i) = true →
      Iterator.Next (Iterator.listIt a i) = Iterator.listIt a i) ∧
    (Iterator.Finished (Iterator.listIt a i) = true →
      Iterator.Value (Iterator.listIt a i) = none) ∧
    (i ≤ a.length → Iterator.Finished (Iterator.listIt a i) = false →
      (Iterator.Value (Iterator.listIt a i)).isSome = true) := by
  refine ⟨?_, ?_, ?_, ?_⟩
  · intro h
    simp only [Iterator.Next]
    split
    · simpa [Iterator.Index] using h
    · rename_i hne
      simp only [Iterator.Index]
      have hne' : i ≠ a.length := by simpa using hne
      omega
  · intro h
    simp only [Iterator.Finished, beq_iff_eq] at h
    simp [Iterator.Next, h]
  · intro h
    simp only [Iterator.Finished, beq_iff_eq] at h
    simp [Iterator.Value, h]
  · intro h hf
    simp only [Iterator.Finished, beq_eq_false_iff_ne] at hf
    have : i < a.length := by omega
    simp [Iterator.Value, List.getElem?_eq_getElem this]

/-- Witness for C8 on the one-element slice `[7]` at indices 1 and 0. -/
theorem list_iterator_next_bounded_witness :
    Iterator.Next (Iterator.listIt [Val.vint 7] 1) = Iterator.listIt [Val.vint 7] 1 ∧
    Iterator.Value (Iterator.listIt [Val.vint 7] 1) = none ∧
    (Iterator.Value (Iterator.listIt [Val.vint 7] 0)).isSome = true :=
  ⟨(list_iterator_next_bounded [Val.vint 7] 1).2.1 rfl,
   (list_iterator_next_bounded [Val.vint 7] 1).2.2.1 rfl,
   (list_iterator_next_bounded [Val.vint 7] 0).2.2.2 (by decide) rfl⟩

/-! ## Claim C9: nil bindings shadow descent and are indistinguishable
from absent keys -/

/-- C9: when the literal composite key is bound to nil in the top-level
map, `Get` returns that nil value without falling back to the dotted
descent; `IsSet` is then false, just as for a fully absent key, so the two
cases cannot be told apart through the public interface. -/
theorem nil_binding_shadows_descent (c : Config) (key : GoStr) :
    (c.data.lookup key = some Val.vnil → Config.Get c key = ⟨Val.vnil⟩) ∧
    (c.data.lookup key = none →
      getValueWithCompositeKey c.data (stringsSplitSep key) = Val.vnil →
      Config.Get c key = ⟨Val.vnil⟩) ∧
    ConfigValue.IsSet ⟨Val.vnil⟩ = false := by
  refine ⟨?_, ?_, rfl⟩
  · intro h
    unfold Config.Get
    rw [h]
  · intro h h2
    unfold Config.Get
    rw [h, h2]

/-- Witness for C9 on `{"a.b": nil, "a": {"b": 7}}`: the nil binding under
the literal key `"a.b"` shadows the descent (which would find 7), and the
result is as unset as for the absent key `"zzz"`. -/
theorem nil_binding_shadows_descent_witness :
    Config.Get ⟨[("a.b", Val.vnil), ("a", Val.vsmap [("b", Val.vint 7)])]⟩ "a.b"
      = ⟨Val.vnil⟩ ∧
    getValueWithCompositeKey
      [("a.b", Val.vnil), ("a", Val.vsmap [("b", Val.vint 7)])]
      (stringsSplitSep "a.b") = Val.vint 7 ∧
    Config.Get ⟨[("a.b", Val.vnil), ("a", Val.vsmap [("b", Val.vint 7)])]⟩ "zzz"
      = ⟨Val.vnil⟩ ∧
    ConfigValue.IsSet ⟨Val.vnil⟩ = false :=
  ⟨(nil_binding_shadows_descent
      ⟨[("a.b", Val.vnil), ("a", Val.vsmap [("b", Val.vint 7)])]⟩ "a.b").1 rfl,
   rfl,
   (nil_binding_shadows_descent
      ⟨[("a.b", Val.vnil), ("a", Val.vsmap [("b", Val.vint 7)])]⟩ "zzz").2.1 rfl rfl,
   (nil_binding_shadows_descent ⟨[]⟩ "").2.2⟩

/-! ## Claim C10: a full map-iterator run visits every entry once -/

/-- Run an iterator with explicit fuel: emit `(Key, Value)` and advance
with `Next` until `Finished` (or the fuel runs out). -/
def iterRun : Nat → Iterator → List (Option GoStr × Option ConfigValue)
  | 0, _ => []
  | n + 1, it =>
    if Iterator.Finished it then []
    else (Iterator.Key it, Iterator.Value it) :: iterRun n (Iterator.Next it)

theorem lookup_of_mem_nodup (k : GoStr) (v : Val) :
    ∀ (m : List (GoStr × Val)), (k, v) ∈ m → (m.map Prod.fst).Nodup →
      m.lookup k = some v := by
  intro m
  induction m with
  | nil => intro h _; cases h
  | cons p t ih =>
    intro hmem hnd
    rw [List.map_cons, List.nodup_cons] at hnd
    rcases List.mem_cons.mp hmem with heq | hmem'
    · obtain ⟨p1, p2⟩ := p
      cases heq
      simp [List.lookup_cons]
    · have hk : (k == p.1) = false := beq_eq_false_iff_ne.mpr
        (fun he => hnd.1 (he ▸ List.mem_map_of_mem Prod.fst hmem'))
      obtain ⟨p1, p2⟩ := p
      simp only [List.lookup_cons, hk]
      exact ih hmem' hnd.2

theorem iterRun_mapIt (m : List (GoStr × Val)) (hnd : (m.map Prod.fst).Nodup) :
    ∀ (n j : Nat), j + n = m.length →
      iterRun n (Iterator.mapIt (mapGetKeys m) j m) =
        (m.drop j).map (fun p => (some p.1, some ⟨p.2⟩)) := by
  intro n
  induction n with
  | zero =>
    intro j hj
    have : j = m.length := by omega
    simp [iterRun, this]
  | succ n ih =>
    intro j hj
    have hjlt : j < m.length := by omega
    have hklen : (mapGetKeys m).length = m.length := by
      simp [mapGetKeys]
    have hfin : Iterator.Finished (Iterator.mapIt (mapGetKeys m) j m) = false := by
      simp only [Iterator.Finished, hklen, beq_eq_false_iff_ne]
      omega
    have hkey : (mapGetKeys m)[j]? = some (Val.vstr m[j].1) := by
      simp [mapGetKeys, List.getElem?_eq_getElem hjlt]
    have hnext : Iterator.Next (Iterator.mapIt (mapGetKeys m) j m) =
        Iterator.mapIt (mapGetKeys m) (j + 1) m := by
      simp only [Iterator.Next, hklen, beq_iff_eq]
      rw [if_neg (by omega)]
    have hpm : ((m[j] : GoStr × Val).1, (m[j] : GoStr × Val).2) ∈ m := by
      rw [Prod.mk.eta]
      exact List.getElem_mem hjlt
    have hlk : m.lookup m[j].1 = some m[j].2 := lookup_of_mem_nodup _ _ m hpm hnd
    rw [iterRun, if_neg (by simp [hfin])]
    rw [hnext, ih (j + 1) (by omega)]
    rw [List.drop_eq_getElem_cons hjlt]
    simp only [List.map_cons]
    congr 1
    simp [Iterator.Key, Iterator.Value, hkey, ConfigValue.String, hlk]

/-- C10: for a `ConfigValue` viewable as a string-keyed map whose keys are
pairwise distinct (as Go map keys always are), a full run of the map
iterator from `Iterate` until `Finished` visits every entry of the map
exactly once, in the order of the key slice, and at each step `Value()` is
exactly the map's entry for the current `Key()`. -/
theorem map_iterator_visits_each_entry (v : Val) (m : List (GoStr × Val))
    (hm : toStrMap v = some m) (hnd : (m.map Prod.fst).Nodup) :
    iterRun m.length (ConfigValue.Iterate ⟨v⟩) =
      m.map (fun p => (some p.1, some ⟨p.2⟩)) := by
  rw [iterate_eq_mapIt v m hm]
  simpa using iterRun_mapIt m hnd m.length 0 (by omega)

/-- Witness for C10 on the two-entry map `{"x": 1, "y": 2}`. -/
theorem map_iterator_visits_each_entry_witness :
    iterRun 2 (ConfigValue.Iterate ⟨Val.vsmap [("x", Val.vint 1), ("y", Val.vint 2)]⟩)
      = [(some "x", some ⟨Val.vint 1⟩), (some "y", some ⟨Val.vint 2⟩)] :=
  map_iterator_visits_each_entry (Val.vsmap [("x", Val.vint 1), ("y", Val.vint 2)])
    [("x", Val.vint 1), ("y", Val.vint 2)] rfl (by decide)
